import Mathlib

/-!
Verification development for the `ruster` repository's worker-pool task queue
and its supporting data structures.

Embedded source files:
* `src/dater/src/structures/stack.rs` — linked-list stack (`Stack`)
* `src/dater/src/structures/queue.rs` — two-stack FIFO queue (`Queue`)
* `src/dater/src/arc_queue.rs` — thread-safe shared queue (`ArcQueue`);
  each locked operation is modelled as one atomic step
* `src/pooler/src/task.rs` — cancellable background loop (`Task`)
* `src/pooler/src/task_queue.rs` — the worker pool (`TaskQueue`)

The pool (`TaskQueue` + its `Task` workers + the closure passed by
`TaskQueue::new`) is modelled as an interleaved small-step transition system
`Step` on `PoolState`: every mutex-protected access in the source (queue
push/pop/is_empty, the busy and cancelled flags) is one atomic transition,
and thread-local control flow between those accesses is recorded in a
program-counter-like `phase` field.
-/

namespace Ruster

/-- Model of `Stack<T>` from `src/dater/src/structures/stack.rs`: a singly
linked list whose head is the top of the stack. -/
abbrev Stack (α : Type) : Type := List α

/-- `Stack::new` — the empty stack. -/
def Stack.new {α : Type} : Stack α := []

/-- `Stack::push` — prepends a node holding `v` (the new head). -/
def Stack.push {α : Type} (s : Stack α) (v : α) : Stack α := v :: s

/-- `Stack::pop` — removes and returns the head, if any.  The Rust method
mutates in place and returns `Option<T>`; here it returns the popped value
together with the remaining stack. -/
def Stack.pop {α : Type} (s : Stack α) : Option α × Stack α :=
  match s with
  | [] => (none, [])
  | x :: rest => (some x, rest)

/-- `Stack::is_empty` — true iff the head link is `None`. -/
def Stack.empty {α : Type} (s : Stack α) : Bool :=
  match s with
  | [] => true
  | _ :: _ => false

/-- Model of `Queue<T>` from `src/dater/src/structures/queue.rs`: a FIFO
queue built from two stacks.  `items` holds elements in dequeue order,
`backlog` holds newly pushed elements. -/
structure Queue (α : Type) where
  items : Stack α
  backlog : Stack α

/-- `Queue::new` — both stacks empty. -/
def Queue.new {α : Type} : Queue α := ⟨Stack.new, Stack.new⟩

/-- `Queue::push` — pushes onto the `backlog` stack. -/
def Queue.push {α : Type} (q : Queue α) (x : α) : Queue α :=
  { q with backlog := Stack.push q.backlog x }

/-- The flush loop inside `Queue::pop` / `Queue::peek`:
`while let Some(item) = backlog.pop() { items.push(item) }`. -/
def flushInto {α : Type} : Stack α → Stack α → Stack α
  | [], items => items
  | x :: rest, items => flushInto rest (Stack.push items x)

/-- `Queue::pop` — pops from `items`; if `items` is exhausted, flushes the
`backlog` stack into `items` (reversing it) and pops again. -/
def Queue.pop {α : Type} (q : Queue α) : Option α × Queue α :=
  match Stack.pop q.items with
  | (some x, rest) => (some x, { q with items := rest })
  | (none, _) =>
    let flushed := flushInto q.backlog q.items
    match Stack.pop flushed with
    | (some x, rest) => (some x, ⟨rest, Stack.new⟩)
    | (none, rest) => (none, ⟨rest, Stack.new⟩)

/-- `Queue::is_empty` — both stacks empty. -/
def Queue.empty {α : Type} (q : Queue α) : Bool :=
  Stack.empty q.items && Stack.empty q.backlog

/-- Abstraction function: the sequence of pending elements in dequeue
order.  `items` comes out first (top of stack = front of queue), then the
`backlog` stack reversed. -/
def toListQ {α : Type} (q : Queue α) : List α :=
  q.items ++ q.backlog.reverse

/-- Model of `ArcQueue<T>` from `src/dater/src/arc_queue.rs`: an
`Arc<Mutex<Queue<T>>>`.  The lock serialises accesses, so each operation is
the corresponding pure `Queue` operation performed atomically. -/
structure ArcQueue (α : Type) where
  items : Queue α

/-- `ArcQueue::new`. -/
def ArcQueue.new {α : Type} : ArcQueue α := ⟨Queue.new⟩

/-- `ArcQueue::push` — locks and delegates to `Queue::push`. -/
def ArcQueue.push {α : Type} (q : ArcQueue α) (x : α) : ArcQueue α :=
  ⟨q.items.push x⟩

/-- `ArcQueue::pop` — locks and delegates to `Queue::pop`. -/
def ArcQueue.pop {α : Type} (q : ArcQueue α) : Option α × ArcQueue α :=
  ((q.items.pop).1, ⟨(q.items.pop).2⟩)

/-- `ArcQueue::is_empty` — locks and delegates to `Queue::is_empty`. -/
def ArcQueue.empty {α : Type} (q : ArcQueue α) : Bool :=
  q.items.empty

/-- Pending elements of an `ArcQueue`, in dequeue order. -/
def toListA {α : Type} (q : ArcQueue α) : List α :=
  toListQ q.items

/-- Control point of one `Task` background loop (`Task::new` in
`src/pooler/src/task.rs`), specialised to the closure installed by
`TaskQueue::new` (`src/pooler/src/task_queue.rs` lines 71-77): the closure
pops one item from the shared backlog, invokes the per-item handler on it if
one was obtained, and returns `true`.

* `checking`   — about to read the `is_canceled` flag at the top of the loop
* `setBusy`    — about to set `is_processing := true` (before the pop!)
* `popping`    — inside the closure, about to pop the shared queue
* `handling x` — popped `x`, about to invoke the per-item handler on it
* `innerClear` — handler returned normally and the closure returned `true`:
  about to run the clear inside `if result` (sets `is_processing := false`)
* `outerClear` — about to run the clear after `catch_unwind`
  (also reached directly when the handler panicked)
* `sleeping`   — about to sleep the fixed poll interval
* `finished`   — the loop has exited (the thread terminated) -/
inductive WPhase (α : Type) where
  | checking
  | setBusy
  | popping
  | handling (x : α)
  | innerClear
  | outerClear
  | sleeping
  | finished

/-- Shared state of one `Task`: its loop phase plus the two lock-guarded
flags `is_processing` (here `busy`) and `is_canceled` (here `cancelled`). -/
structure WorkerSt (α : Type) where
  phase : WPhase α
  busy : Bool
  cancelled : Bool

/-- Control point of a thread blocked in `TaskQueue::wait`
(`src/pooler/src/task_queue.rs` lines 119-123).  The loop condition
`!self.is_empty() || self.is_busy()` reads `is_empty` first; `is_busy`
iterates the workers' flags one lock at a time with short-circuiting `any`.

* `checkEmpty`  — about to read `is_empty()`
* `checkBusy k` — `is_empty()` was true this iteration; about to read
  worker `k`'s busy flag
* `waitSleep`   — the condition held; about to sleep 100ms and re-check
* `returned`    — `wait()` has returned -/
inductive WaiterPc where
  | checkEmpty
  | checkBusy (k : Nat)
  | waitSleep
  | returned
deriving DecidableEq

/-- Global state of a `TaskQueue` run: items the producers have not yet
pushed (`toPush`, consumed in program order — each push is linearised at the
queue lock), the shared backlog, the workers created by `TaskQueue::new`,
the list of completed handler invocations in completion order (`handled`),
and the control point of the thread calling `wait()`. -/
structure PoolState (α : Type) where
  toPush : List α
  backlog : ArcQueue α
  workers : List (WorkerSt α)
  handled : List α
  waiter : WaiterPc

/-- Items currently popped by a worker but whose handler invocation has not
completed. -/
def inflightOf {α : Type} (w : WorkerSt α) : List α :=
  match w.phase with
  | WPhase.handling x => [x]
  | _ => []

/-- All in-flight items, worker by worker. -/
def inflights {α : Type} (s : PoolState α) : List α :=
  (s.workers.map inflightOf).flatten

/-- `TaskQueue::is_busy` — true iff some worker's busy flag is set (the
instantaneous value; the real loop reads one flag at a time, which the
waiter's `checkBusy` phases model). -/
def poolIsBusy {α : Type} (s : PoolState α) : Bool :=
  s.workers.any (fun w => w.busy)

/-- `TaskQueue::is_empty` — delegates to the shared backlog. -/
def poolIsEmpty {α : Type} (s : PoolState α) : Bool :=
  s.backlog.empty

/-- Interleaved small-step semantics of the pool.  Each constructor is one
atomic (mutex-protected) access of some thread; `panics` tells which items
make the caller-supplied handler panic. -/
inductive Step {α : Type} (panics : α → Bool) : PoolState α → PoolState α → Prop where
  /-- A producer pushes the next item (`TaskQueue::push` →
  `ArcQueue::push`, linearised at the queue lock). -/
  | pushStep (s : PoolState α) (x : α) (rest : List α)
      (h : s.toPush = x :: rest) :
      Step panics s { s with toPush := rest, backlog := s.backlog.push x }
  /-- Some thread sets worker `i`'s cancelled flag (`Task::cancel` or the
  start of `Drop for Task`). -/
  | cancelStep (s : PoolState α) (i : Nat) (w : WorkerSt α)
      (hw : s.workers[i]? = some w) :
      Step panics s { s with workers := s.workers.set i { w with cancelled := true } }
  /-- Worker `i` reads its cancelled flag at the top of the loop and sees
  `true`: the loop breaks. -/
  | checkCancelTrue (s : PoolState α) (i : Nat) (w : WorkerSt α)
      (hw : s.workers[i]? = some w) (hp : w.phase = WPhase.checking)
      (hc : w.cancelled = true) :
      Step panics s { s with workers := s.workers.set i { w with phase := WPhase.finished } }
  /-- Worker `i` reads its cancelled flag and sees `false`: it proceeds to
  set the processing flag. -/
  | checkCancelFalse (s : PoolState α) (i : Nat) (w : WorkerSt α)
      (hw : s.workers[i]? = some w) (hp : w.phase = WPhase.checking)
      (hc : w.cancelled = false) :
      Step panics s { s with workers := s.workers.set i { w with phase := WPhase.setBusy } }
  /-- Worker `i` sets `is_processing := true` (before popping). -/
  | setBusyStep (s : PoolState α) (i : Nat) (w : WorkerSt α)
      (hw : s.workers[i]? = some w) (hp : w.phase = WPhase.setBusy) :
      Step panics s { s with workers := s.workers.set i { w with busy := true, phase := WPhase.popping } }
  /-- Worker `i` pops the shared queue and obtains an item. -/
  | popSome (s : PoolState α) (i : Nat) (w : WorkerSt α) (x : α) (q' : ArcQueue α)
      (hw : s.workers[i]? = some w) (hp : w.phase = WPhase.popping)
      (hq : s.backlog.pop = (some x, q')) :
      Step panics s { s with
                      backlog := q',
                      workers := s.workers.set i { w with phase := WPhase.handling x } }
  /-- Worker `i` pops the shared queue and finds it empty; the closure
  still returns `true`. -/
  | popNone (s : PoolState α) (i : Nat) (w : WorkerSt α) (q' : ArcQueue α)
      (hw : s.workers[i]? = some w) (hp : w.phase = WPhase.popping)
      (hq : s.backlog.pop = (none, q')) :
      Step panics s { s with
                      backlog := q',
                      workers := s.workers.set i { w with phase := WPhase.innerClear } }
  /-- Worker `i` invokes the handler on its popped item.  The invocation is
  recorded in `handled`; if the handler panics, `catch_unwind` catches it
  and control skips the inner clear. -/
  | handleStep (s : PoolState α) (i : Nat) (w : WorkerSt α) (x : α)
      (hw : s.workers[i]? = some w) (hp : w.phase = WPhase.handling x) :
      Step panics s { s with
                      handled := s.handled ++ [x],
                      workers := s.workers.set i
                        { w with phase := if panics x then WPhase.outerClear else WPhase.innerClear } }
  /-- Worker `i` runs the clear inside `if result { ... }`. -/
  | innerClearStep (s : PoolState α) (i : Nat) (w : WorkerSt α)
      (hw : s.workers[i]? = some w) (hp : w.phase = WPhase.innerClear) :
      Step panics s { s with workers := s.workers.set i { w with busy := false, phase := WPhase.outerClear } }
  /-- Worker `i` runs the clear after `catch_unwind`. -/
  | outerClearStep (s : PoolState α) (i : Nat) (w : WorkerSt α)
      (hw : s.workers[i]? = some w) (hp : w.phase = WPhase.outerClear) :
      Step panics s { s with workers := s.workers.set i { w with busy := false, phase := WPhase.sleeping } }
  /-- Worker `i` finishes its 10ms sleep and loops. -/
  | sleepStep (s : PoolState α) (i : Nat) (w : WorkerSt α)
      (hw : s.workers[i]? = some w) (hp : w.phase = WPhase.sleeping) :
      Step panics s { s with workers := s.workers.set i { w with phase := WPhase.checking } }
  /-- The waiter reads `is_empty()` and sees `true`; it proceeds to read
  the busy flags.  Waiter steps are enabled only once all pushes are done
  (the claims concern pushes *followed by* `wait()`). -/
  | wEmptyTrue (s : PoolState α)
      (hp : s.waiter = WaiterPc.checkEmpty) (ht : s.toPush = [])
      (hq : s.backlog.empty = true) :
      Step panics s { s with waiter := WaiterPc.checkBusy 0 }
  /-- The waiter reads `is_empty()` and sees `false`: the loop condition
  short-circuits to `true` and it sleeps. -/
  | wEmptyFalse (s : PoolState α)
      (hp : s.waiter = WaiterPc.checkEmpty) (ht : s.toPush = [])
      (hq : s.backlog.empty = false) :
      Step panics s { s with waiter := WaiterPc.waitSleep }
  /-- The waiter reads worker `k`'s busy flag and sees `true`: `any`
  short-circuits, the condition holds, and it sleeps. -/
  | wBusyTrue (s : PoolState α) (k : Nat) (w : WorkerSt α)
      (hp : s.waiter = WaiterPc.checkBusy k) (ht : s.toPush = [])
      (hw : s.workers[k]? = some w) (hb : w.busy = true) :
      Step panics s { s with waiter := WaiterPc.waitSleep }
  /-- The waiter reads worker `k`'s busy flag and sees `false`: `any`
  moves on to the next worker. -/
  | wBusyFalse (s : PoolState α) (k : Nat) (w : WorkerSt α)
      (hp : s.waiter = WaiterPc.checkBusy k) (ht : s.toPush = [])
      (hw : s.workers[k]? = some w) (hb : w.busy = false) :
      Step panics s { s with waiter := WaiterPc.checkBusy (k + 1) }
  /-- The waiter has read every busy flag as `false` this iteration: the
  loop condition is `false` and `wait()` returns. -/
  | wBusyDone (s : PoolState α) (k : Nat)
      (hp : s.waiter = WaiterPc.checkBusy k) (ht : s.toPush = [])
      (hk : s.workers.length ≤ k) :
      Step panics s { s with waiter := WaiterPc.returned }
  /-- The waiter finishes its 100ms sleep and re-evaluates the condition. -/
  | wSleepStep (s : PoolState α)
      (hp : s.waiter = WaiterPc.waitSleep) (ht : s.toPush = []) :
      Step panics s { s with waiter := WaiterPc.checkEmpty }

/-- The pool as built by `TaskQueue::new(nw, handler)` with the producers
about to push the items of `l` in order: empty backlog, `nw` workers at the
top of their loops with both flags clear, nothing handled, and the waiting
thread at its first condition check. -/
def initState {α : Type} (l : List α) (nw : Nat) : PoolState α :=
  ⟨l, ArcQueue.new, List.replicate nw ⟨WPhase.checking, false, false⟩, [], WaiterPc.checkEmpty⟩

/-- Reachability from the freshly constructed pool. -/
def Reachable {α : Type} (panics : α → Bool) (l : List α) (nw : Nat) (s : PoolState α) : Prop :=
  Relation.ReflTransGen (Step panics) (initState l nw) s

/-- Outcome of one invocation of the caller-supplied closure of the generic
`Task::new` loop (`F: Fn() -> bool`, `src/pooler/src/task.rs`): return
`true`, return `false`, or terminate abnormally (panic). -/
inductive HandlerRes where
  | retTrue
  | retFalse
  | panicked
deriving DecidableEq

/-- Control point of the generic `Task::new` loop, with the closure left
abstract.  Same loop structure as `WPhase`, but `running` covers the whole
closure invocation. -/
inductive TaskPhase where
  | checking
  | setBusy
  | running
  | innerClear
  | outerClear
  | sleeping
  | finished
deriving DecidableEq

/-- State of one generic `Task`: loop control point, the two flags, and how
many closure invocations have completed (used to index the outcome
oracle). -/
structure TaskSt where
  phase : TaskPhase
  busy : Bool
  cancelled : Bool
  calls : Nat

/-- One transition of the generic `Task::new` loop
(`src/pooler/src/task.rs` lines 39-76).  `handler n` is the outcome of the
`n`-th closure invocation.  A `true` return runs the clear inside
`if result` and then `return`s out of the `catch_unwind` closure — it does
NOT break the loop; a `false` return skips that block; a panic is caught by
`catch_unwind`.  All three paths fall through to the clear after
`catch_unwind`, the sleep, and the next iteration; the loop breaks only
when the cancelled flag is read as `true` at the top. -/
def taskStep (handler : Nat → HandlerRes) (st : TaskSt) : TaskSt :=
  match st.phase with
  | TaskPhase.checking =>
    if st.cancelled then { st with phase := TaskPhase.finished }
    else { st with phase := TaskPhase.setBusy }
  | TaskPhase.setBusy => { st with busy := true, phase := TaskPhase.running }
  | TaskPhase.running =>
    match handler st.calls with
    | HandlerRes.retTrue => { st with calls := st.calls + 1, phase := TaskPhase.innerClear }
    | HandlerRes.retFalse => { st with calls := st.calls + 1, phase := TaskPhase.outerClear }
    | HandlerRes.panicked => { st with calls := st.calls + 1, phase := TaskPhase.outerClear }
  | TaskPhase.innerClear => { st with busy := false, phase := TaskPhase.outerClear }
  | TaskPhase.outerClear => { st with busy := false, phase := TaskPhase.sleeping }
  | TaskPhase.sleeping => { st with phase := TaskPhase.checking }
  | TaskPhase.finished => st

/-- `n` successive transitions of the generic loop. -/
def stepN (handler : Nat → HandlerRes) : Nat → TaskSt → TaskSt
  | 0, st => st
  | n + 1, st => stepN handler n (taskStep handler st)

/-- Setting the cancelled flag (`Task::cancel`, also the first action of
`impl Drop for Task`). -/
def cancelTask (st : TaskSt) : TaskSt := { st with cancelled := true }

/-- Model of `impl Drop for Task` (`src/pooler/src/task.rs` lines 14-26):
set the cancelled flag, then join the thread.  The join blocks until the
loop exits; the loop exits within seven further transitions (proved below),
so running seven transitions past the cancel reaches the joined state. -/
def dropTask (handler : Nat → HandlerRes) (st : TaskSt) : TaskSt :=
  stepN handler 7 (cancelTask st)

/-- Inductive invariant of the pool semantics.

* `len`   — the worker count is fixed at construction.
* `perm`  — conservation: as a multiset, handled + in-flight + queued +
  not-yet-pushed items are exactly the items of `l`.
* `busyC` — a worker whose phase lies between the busy-set and the first
  busy-clear (popping, handling, or the inner clear) has its busy flag set;
  in particular any worker holding an unhandled popped item reads busy.
* `wait1` — when the waiter is scanning busy flags, its `is_empty` read of
  this iteration saw an empty queue; the queue is still empty (pushes are
  done, so it can never grow again), and none of the workers already read
  as not-busy holds an unhandled popped item (the queue being permanently
  empty, they can never acquire one).
* `wait2` — once `wait()` has returned: nothing is pending, nothing is
  being pushed, and no worker holds an unhandled item.
* `ord`   — with at most one worker, the ordered decomposition
  handled ++ in-flight ++ queued ++ unpushed is exactly `l`: items are
  handled in push order.
* `hzero` — with no workers nothing is ever handled.
* `zeroW` — with no workers and at least one item, the waiter never gets
  past its `is_empty` check, so `wait()` never returns. -/
structure Inv {α : Type} (panics : α → Bool) (l : List α) (nw : Nat) (s : PoolState α) : Prop where
  len : s.workers.length = nw
  perm : (↑s.handled + ↑(inflights s) + ↑(toListA s.backlog) + ↑s.toPush : Multiset α) = ↑l
  busyC : ∀ w ∈ s.workers,
    (w.phase = WPhase.popping ∨ (∃ x, w.phase = WPhase.handling x) ∨ w.phase = WPhase.innerClear) →
    w.busy = true
  wait1 : ∀ k, s.waiter = WaiterPc.checkBusy k →
    s.toPush = [] ∧ toListA s.backlog = [] ∧
    ∀ (j : Nat) (w : WorkerSt α), j < k → s.workers[j]? = some w →
      ∀ x, w.phase ≠ WPhase.handling x
  wait2 : s.waiter = WaiterPc.returned →
    s.toPush = [] ∧ toListA s.backlog = [] ∧
    ∀ (j : Nat) (w : WorkerSt α), s.workers[j]? = some w →
      ∀ x, w.phase ≠ WPhase.handling x
  ord : nw ≤ 1 → s.handled ++ (inflights s ++ (toListA s.backlog ++ s.toPush)) = l
  hzero : nw = 0 → s.handled = []
  zeroW : nw = 0 → l ≠ [] → s.waiter = WaiterPc.checkEmpty ∨ s.waiter = WaiterPc.waitSleep

/-- Concrete single-worker pool state after the item `5` has been pushed,
popped and handled, every flag cleared, and `wait()` has returned. -/
def drainedState : PoolState Nat :=
  ⟨[], ⟨⟨[], []⟩⟩, [⟨WPhase.sleeping, false, false⟩], [5], WaiterPc.returned⟩

/-- Concrete single-worker pool state in which nothing was ever pushed, yet
the worker has just set its busy flag and is about to poll the empty queue:
`is_busy()` reads true with no item anywhere. -/
def pollBusyState : PoolState Nat :=
  ⟨[], ⟨⟨[], []⟩⟩, [⟨WPhase.popping, true, false⟩], [], WaiterPc.checkEmpty⟩

/-- Concrete single-worker pool state reached after the full `drainedState`
run and three more worker transitions: `wait()` has returned, yet the worker
has set its busy flag again while merely polling the empty queue. -/
def postWaitBusyState : PoolState Nat :=
  ⟨[], ⟨⟨[], []⟩⟩, [⟨WPhase.popping, true, false⟩], [5], WaiterPc.returned⟩

/-- Concrete single-worker pool state whose worker has popped the item `5`
and is about to invoke the handler on it. -/
def handlingState : PoolState Nat :=
  ⟨[], ⟨⟨[], []⟩⟩, [⟨WPhase.handling 5, true, false⟩], [], WaiterPc.checkEmpty⟩

/-- Concrete single-worker pool state whose worker has popped the item `7`
and is about to invoke a handler that panics on it. -/
def panicWitState : PoolState Nat :=
  ⟨[], ⟨⟨[], []⟩⟩, [⟨WPhase.handling 7, true, false⟩], [], WaiterPc.checkEmpty⟩

end Ruster

namespace Ruster

theorem flushInto_eq {α : Type} (s acc : Stack α) :
    flushInto s acc = s.reverse ++ acc := by
  induction s generalizing acc with
  | nil => simp [flushInto]
  | cons x rest ih => simp [flushInto, Stack.push, ih]

theorem toListQ_push {α : Type} (q : Queue α) (x : α) :
    toListQ (q.push x) = toListQ q ++ [x] := by
  obtain ⟨its, bl⟩ := q
  simp [Queue.push, toListQ, Stack.push]

theorem pop_fst {α : Type} (q : Queue α) :
    (q.pop).1 = (toListQ q).head? := by
  obtain ⟨its, bl⟩ := q
  cases its with
  | cons x rest => simp [Queue.pop, Stack.pop, toListQ]
  | nil =>
    cases h : bl.reverse with
    | nil => simp [Queue.pop, Stack.pop, toListQ, flushInto_eq, h, Stack.new]
    | cons y rest => simp [Queue.pop, Stack.pop, toListQ, flushInto_eq, h, Stack.new]

theorem pop_snd {α : Type} (q : Queue α) :
    toListQ (q.pop).2 = (toListQ q).tail := by
  obtain ⟨its, bl⟩ := q
  cases its with
  | cons x rest => simp [Queue.pop, Stack.pop, toListQ]
  | nil =>
    cases h : bl.reverse with
    | nil => simp [Queue.pop, Stack.pop, toListQ, flushInto_eq, h, Stack.new]
    | cons y rest => simp [Queue.pop, Stack.pop, toListQ, flushInto_eq, h, Stack.new]

theorem queue_empty_iff {α : Type} (q : Queue α) :
    q.empty = true ↔ q.items = [] ∧ q.backlog = [] := by
  obtain ⟨its, bl⟩ := q
  cases its <;> cases bl <;> simp [Queue.empty, Stack.empty]

theorem queue_empty_iff_toListQ {α : Type} (q : Queue α) :
    q.empty = true ↔ toListQ q = [] := by
  rw [queue_empty_iff]
  obtain ⟨its, bl⟩ := q
  simp [toListQ]

theorem arc_empty_iff {α : Type} (q : ArcQueue α) :
    q.empty = true ↔ toListA q = [] :=
  queue_empty_iff_toListQ q.items

theorem arc_pop_fst {α : Type} (q : ArcQueue α) :
    (q.pop).1 = (toListA q).head? := pop_fst q.items

theorem arc_pop_snd {α : Type} (q : ArcQueue α) :
    toListA (q.pop).2 = (toListA q).tail := pop_snd q.items

theorem arc_push_toList {α : Type} (q : ArcQueue α) (x : α) :
    toListA (q.push x) = toListA q ++ [x] := toListQ_push q.items x

end Ruster

namespace Ruster

theorem arc_pop_some_toList {α : Type} (q q' : ArcQueue α) (x : α)
    (h : q.pop = (some x, q')) : toListA q = x :: toListA q' := by
  have h1 := arc_pop_fst q
  have h2 := arc_pop_snd q
  rw [h] at h1 h2
  cases hl : toListA q with
  | nil => rw [hl] at h1; simp at h1
  | cons y t =>
    rw [hl] at h1 h2
    simp at h1 h2
    rw [h1, h2]

theorem arc_pop_none_toList {α : Type} (q q' : ArcQueue α)
    (h : q.pop = (none, q')) : toListA q = [] ∧ toListA q' = [] := by
  have h1 := arc_pop_fst q
  have h2 := arc_pop_snd q
  rw [h] at h1 h2
  cases hl : toListA q with
  | nil =>
    rw [hl] at h2
    exact ⟨rfl, h2⟩
  | cons y t => rw [hl] at h1; simp at h1

theorem inflights_set_ms {α : Type} (ws : List (WorkerSt α)) (i : Nat)
    (w w' : WorkerSt α) (h : ws[i]? = some w) :
    (↑(((ws.set i w').map inflightOf).flatten) + ↑(inflightOf w) : Multiset α)
      = ↑((ws.map inflightOf).flatten) + ↑(inflightOf w') := by
  induction ws generalizing i with
  | nil => simp at h
  | cons a t ih =>
    cases i with
    | zero =>
      simp at h
      subst h
      simp only [List.set, List.map_cons, List.flatten_cons, ← Multiset.coe_add]
      abel
    | succ n =>
      simp at h
      simp only [List.set, List.map_cons, List.flatten_cons, ← Multiset.coe_add]
      rw [add_assoc, ih n h, ← add_assoc]

theorem inflights_ms_same {α : Type} (ws : List (WorkerSt α)) (i : Nat)
    (w w' : WorkerSt α) (h : ws[i]? = some w) (he : inflightOf w' = inflightOf w) :
    (↑(((ws.set i w').map inflightOf).flatten) : Multiset α)
      = ↑((ws.map inflightOf).flatten) := by
  have hms := inflights_set_ms ws i w w' h
  rw [he] at hms
  exact add_right_cancel hms

theorem inflights_ms_gain {α : Type} (ws : List (WorkerSt α)) (i : Nat)
    (w w' : WorkerSt α) (x : α) (h : ws[i]? = some w)
    (hw : inflightOf w = []) (hw' : inflightOf w' = [x]) :
    (↑(((ws.set i w').map inflightOf).flatten) : Multiset α)
      = ↑((ws.map inflightOf).flatten) + {x} := by
  have hms := inflights_set_ms ws i w w' h
  rw [hw, hw'] at hms
  simpa using hms

theorem inflights_ms_loss {α : Type} (ws : List (WorkerSt α)) (i : Nat)
    (w w' : WorkerSt α) (x : α) (h : ws[i]? = some w)
    (hw : inflightOf w = [x]) (hw' : inflightOf w' = []) :
    (↑(((ws.set i w').map inflightOf).flatten) : Multiset α) + {x}
      = ↑((ws.map inflightOf).flatten) := by
  have hms := inflights_set_ms ws i w w' h
  rw [hw, hw'] at hms
  simpa using hms

theorem single_worker {α : Type} (ws : List (WorkerSt α)) (i : Nat)
    (w : WorkerSt α) (h : ws[i]? = some w) (hl : ws.length ≤ 1) :
    ws = [w] ∧ i = 0 := by
  match ws, i with
  | [], _ => simp at h
  | [a], 0 => simp at h; subst h; exact ⟨rfl, rfl⟩
  | [a], n + 1 => simp at h
  | a :: b :: t, _ => simp at hl

theorem flatten_replicate_nil {α : Type} (n : Nat) :
    (List.replicate n ([] : List α)).flatten = [] := by
  induction n with
  | zero => rfl
  | succ k ih => simp [List.replicate, ih]

theorem inflights_init {α : Type} (l : List α) (nw : Nat) :
    inflights (initState l nw) = [] := by
  simp [inflights, initState, inflightOf, List.map_replicate, flatten_replicate_nil]

theorem toListA_new {α : Type} : toListA (ArcQueue.new : ArcQueue α) = [] := rfl

end Ruster

namespace Ruster

theorem inv_init {α : Type} (panics : α → Bool) (l : List α) (nw : Nat) :
    Inv panics l nw (initState l nw) := by
  have hinit := inflights_init (α := α) l nw
  simp only [initState] at hinit
  refine ⟨?_, ?_, ?_, ?_, ?_, ?_, ?_, ?_⟩
  · simp [initState]
  · simp [initState, hinit, toListA_new]
  · intro w hw hcond
    simp only [initState] at hw
    have hw2 := List.eq_of_mem_replicate hw
    subst hw2
    rcases hcond with h | ⟨x, h⟩ | h <;> simp at h
  · intro k hk
    simp [initState] at hk
  · intro hk
    simp [initState] at hk
  · intro h1
    simp [initState, hinit, toListA_new]
  · intro h0
    rfl
  · intro h0 hl
    left
    rfl

theorem inv_set_preserved {α : Type} {panics : α → Bool} {l : List α} {nw : Nat}
    (s : PoolState α) (i : Nat) (w w' : WorkerSt α) (bq' : ArcQueue α)
    (hi : Inv panics l nw s)
    (hw : s.workers[i]? = some w)
    (htl : toListA bq' = toListA s.backlog)
    (hinf : inflightOf w' = inflightOf w)
    (hbc : (w'.phase = WPhase.popping ∨ (∃ x, w'.phase = WPhase.handling x) ∨
      w'.phase = WPhase.innerClear) → w'.busy = true)
    (hnh : (∀ x, w.phase ≠ WPhase.handling x) → ∀ x, w'.phase ≠ WPhase.handling x) :
    Inv panics l nw { s with backlog := bq', workers := s.workers.set i w' } := by
  have hlt : i < s.workers.length := (List.getElem?_eq_some.mp hw).1
  refine ⟨?_, ?_, ?_, ?_, ?_, ?_, ?_, ?_⟩
  · show (s.workers.set i w').length = nw
    rw [List.length_set]
    exact hi.len
  · show (↑s.handled + ↑(((s.workers.set i w').map inflightOf).flatten)
        + ↑(toListA bq') + ↑s.toPush : Multiset α) = ↑l
    rw [htl, inflights_ms_same s.workers i w w' hw hinf]
    exact hi.perm
  · intro w'' hmem'' hcond
    have hmem2 : w'' ∈ s.workers.set i w' := hmem''
    rcases List.mem_or_eq_of_mem_set hmem2 with hm | he
    · exact hi.busyC w'' hm hcond
    · subst he
      exact hbc hcond
  · intro k hk
    replace hk : s.waiter = WaiterPc.checkBusy k := hk
    obtain ⟨ht, hq, hjs⟩ := hi.wait1 k hk
    refine ⟨ht, ?_, ?_⟩
    · show toListA bq' = []
      rw [htl]
      exact hq
    · intro j w'' hj hj2
      have hj3 : (s.workers.set i w')[j]? = some w'' := hj2
      by_cases hji : j = i
      · subst hji
        rw [List.getElem?_set_self hlt] at hj3
        have he : w'' = w' := by injection hj3 with h3; exact h3.symm
        subst he
        exact hnh (hjs j w hj hw)
      · rw [List.getElem?_set_ne (fun he => hji he.symm)] at hj3
        exact hjs j w'' hj hj3
  · intro hk
    replace hk : s.waiter = WaiterPc.returned := hk
    obtain ⟨ht, hq, hjs⟩ := hi.wait2 hk
    refine ⟨ht, ?_, ?_⟩
    · show toListA bq' = []
      rw [htl]
      exact hq
    · intro j w'' hj2
      have hj3 : (s.workers.set i w')[j]? = some w'' := hj2
      by_cases hji : j = i
      · subst hji
        rw [List.getElem?_set_self hlt] at hj3
        have he : w'' = w' := by injection hj3 with h3; exact h3.symm
        subst he
        exact hnh (hjs j w hw)
      · rw [List.getElem?_set_ne (fun he => hji he.symm)] at hj3
        exact hjs j w'' hj3
  · intro h1
    have hnw1 : s.workers.length ≤ 1 := by rw [hi.len]; exact h1
    obtain ⟨hws, hio⟩ := single_worker s.workers i w hw hnw1
    have hord := hi.ord h1
    simp only [inflights, hws, List.map_cons, List.map_nil, List.flatten_cons,
      List.flatten_nil, List.append_nil] at hord
    show s.handled ++ ((((s.workers.set i w').map inflightOf).flatten)
      ++ (toListA bq' ++ s.toPush)) = l
    rw [hws, hio]
    simp only [List.set_cons_zero, List.map_cons, List.map_nil, List.flatten_cons,
      List.flatten_nil, List.append_nil, hinf, htl]
    exact hord
  · intro h0
    show s.handled = []
    exact hi.hzero h0
  · intro h0 hl
    exfalso
    have hlen := hi.len
    rw [h0] at hlen
    have hnil : s.workers = [] := List.length_eq_zero.mp hlen
    rw [hnil] at hw
    simp at hw

end Ruster

namespace Ruster

theorem no_worker_absurd {α : Type} {nw : Nat} (s : PoolState α) (i : Nat) (w : WorkerSt α)
    (hlen : s.workers.length = nw) (hw : s.workers[i]? = some w) (h0 : nw = 0) : False := by
  rw [h0] at hlen
  rw [List.length_eq_zero.mp hlen] at hw
  simp at hw

theorem inv_waiter_frame {α : Type} {panics : α → Bool} {l : List α} {nw : Nat}
    (s : PoolState α) (v : WaiterPc) (hi : Inv panics l nw s)
    (hw1 : ∀ k, v = WaiterPc.checkBusy k →
      s.toPush = [] ∧ toListA s.backlog = [] ∧
      ∀ (j : Nat) (w : WorkerSt α), j < k → s.workers[j]? = some w →
        ∀ x, w.phase ≠ WPhase.handling x)
    (hw2 : v = WaiterPc.returned →
      s.toPush = [] ∧ toListA s.backlog = [] ∧
      ∀ (j : Nat) (w : WorkerSt α), s.workers[j]? = some w →
        ∀ x, w.phase ≠ WPhase.handling x)
    (hzw : nw = 0 → l ≠ [] → v = WaiterPc.checkEmpty ∨ v = WaiterPc.waitSleep) :
    Inv panics l nw { s with waiter := v } :=
  ⟨hi.len, hi.perm, hi.busyC, hw1, hw2, hi.ord, hi.hzero, hzw⟩

theorem inv_wEmptyTrue {α : Type} {panics : α → Bool} {l : List α} {nw : Nat}
    (s : PoolState α) (hi : Inv panics l nw s)
    (hp : s.waiter = WaiterPc.checkEmpty) (ht : s.toPush = [])
    (hq : s.backlog.empty = true) :
    Inv panics l nw { s with waiter := WaiterPc.checkBusy 0 } := by
  have hqe : toListA s.backlog = [] := (arc_empty_iff s.backlog).mp hq
  apply inv_waiter_frame s _ hi
  · intro k hk
    injection hk with hk
    subst hk
    exact ⟨ht, hqe, fun j w hj _ => absurd hj (Nat.not_lt_zero j)⟩
  · intro hk
    simp at hk
  · intro h0 hl
    exfalso
    have hord := hi.ord (by omega)
    have hh := hi.hzero h0
    have hwn : s.workers = [] := by
      apply List.length_eq_zero.mp
      rw [hi.len, h0]
    have hinf : inflights s = [] := by simp [inflights, hwn]
    rw [hh, hinf, hqe, ht] at hord
    simp at hord
    exact hl hord

theorem inv_wEmptyFalse {α : Type} {panics : α → Bool} {l : List α} {nw : Nat}
    (s : PoolState α) (hi : Inv panics l nw s)
    (hp : s.waiter = WaiterPc.checkEmpty) (ht : s.toPush = []) :
    Inv panics l nw { s with waiter := WaiterPc.waitSleep } := by
  apply inv_waiter_frame s _ hi
  · intro k hk
    simp at hk
  · intro hk
    simp at hk
  · intro _ _
    right
    rfl

theorem inv_wBusyTrue {α : Type} {panics : α → Bool} {l : List α} {nw : Nat}
    (s : PoolState α) (hi : Inv panics l nw s) :
    Inv panics l nw { s with waiter := WaiterPc.waitSleep } := by
  apply inv_waiter_frame s _ hi
  · intro k hk
    simp at hk
  · intro hk
    simp at hk
  · intro _ _
    right
    rfl

theorem inv_wBusyFalse {α : Type} {panics : α → Bool} {l : List α} {nw : Nat}
    (s : PoolState α) (k : Nat) (w : WorkerSt α) (hi : Inv panics l nw s)
    (hp : s.waiter = WaiterPc.checkBusy k)
    (hw : s.workers[k]? = some w) (hb : w.busy = false) :
    Inv panics l nw { s with waiter := WaiterPc.checkBusy (k + 1) } := by
  obtain ⟨ht, hq, hjs⟩ := hi.wait1 k hp
  apply inv_waiter_frame s _ hi
  · intro k2 hk
    injection hk with hk
    subst hk
    refine ⟨ht, hq, ?_⟩
    intro j w2 hj hjw
    by_cases hjk : j = k
    · subst hjk
      rw [hw] at hjw
      injection hjw with he
      intro x hx
      rw [← he] at hx
      have := hi.busyC w (List.getElem?_mem hw) (Or.inr (Or.inl ⟨x, hx⟩))
      rw [this] at hb
      cases hb
    · exact hjs j w2 (by omega) hjw
  · intro hk
    simp at hk
  · intro h0 hl
    exfalso
    rcases hi.zeroW h0 hl with h | h <;> rw [hp] at h <;> simp at h

theorem inv_wBusyDone {α : Type} {panics : α → Bool} {l : List α} {nw : Nat}
    (s : PoolState α) (k : Nat) (hi : Inv panics l nw s)
    (hp : s.waiter = WaiterPc.checkBusy k) (hk : s.workers.length ≤ k) :
    Inv panics l nw { s with waiter := WaiterPc.returned } := by
  obtain ⟨ht, hq, hjs⟩ := hi.wait1 k hp
  apply inv_waiter_frame s _ hi
  · intro k2 hk2
    simp at hk2
  · intro _
    refine ⟨ht, hq, ?_⟩
    intro j w2 hjw
    have hjlt : j < s.workers.length := (List.getElem?_eq_some.mp hjw).1
    exact hjs j w2 (by omega) hjw
  · intro h0 hl
    exfalso
    rcases hi.zeroW h0 hl with h | h <;> rw [hp] at h <;> simp at h

theorem inv_wSleep {α : Type} {panics : α → Bool} {l : List α} {nw : Nat}
    (s : PoolState α) (hi : Inv panics l nw s) :
    Inv panics l nw { s with waiter := WaiterPc.checkEmpty } := by
  apply inv_waiter_frame s _ hi
  · intro k hk
    simp at hk
  · intro hk
    simp at hk
  · intro _ _
    left
    rfl

end Ruster

namespace Ruster

theorem inv_push {α : Type} {panics : α → Bool} {l : List α} {nw : Nat}
    (s : PoolState α) (x : α) (rest : List α) (hi : Inv panics l nw s)
    (h : s.toPush = x :: rest) :
    Inv panics l nw { s with toPush := rest, backlog := s.backlog.push x } := by
  refine ⟨hi.len, ?_, hi.busyC, ?_, ?_, ?_, hi.hzero, hi.zeroW⟩
  · show (↑s.handled + ↑(inflights s) + ↑(toListA (s.backlog.push x)) + ↑rest : Multiset α) = ↑l
    have base := hi.perm
    rw [h] at base
    rw [arc_push_toList]
    simp only [← Multiset.cons_coe, ← Multiset.singleton_add, ← Multiset.coe_add] at base ⊢
    rw [← base]
    abel
  · intro k hk
    replace hk : s.waiter = WaiterPc.checkBusy k := hk
    obtain ⟨ht, -, -⟩ := hi.wait1 k hk
    rw [h] at ht
    simp at ht
  · intro hk
    replace hk : s.waiter = WaiterPc.returned := hk
    obtain ⟨ht, -, -⟩ := hi.wait2 hk
    rw [h] at ht
    simp at ht
  · intro h1
    have hord := hi.ord h1
    rw [h] at hord
    show s.handled ++ (inflights s ++ (toListA (s.backlog.push x) ++ rest)) = l
    rw [arc_push_toList]
    simpa [List.append_assoc] using hord

theorem inv_popSome {α : Type} {panics : α → Bool} {l : List α} {nw : Nat}
    (s : PoolState α) (i : Nat) (w : WorkerSt α) (x : α) (q' : ArcQueue α)
    (hi : Inv panics l nw s)
    (hw : s.workers[i]? = some w) (hp : w.phase = WPhase.popping)
    (hq : s.backlog.pop = (some x, q')) :
    Inv panics l nw { s with
                      backlog := q',
                      workers := s.workers.set i { w with phase := WPhase.handling x } } := by
  have hlt : i < s.workers.length := (List.getElem?_eq_some.mp hw).1
  have htl : toListA s.backlog = x :: toListA q' := arc_pop_some_toList _ _ _ hq
  have hfw : inflightOf w = [] := by unfold inflightOf; rw [hp]
  have hfw' : inflightOf { w with phase := WPhase.handling x } = [x] := rfl
  refine ⟨?_, ?_, ?_, ?_, ?_, ?_, ?_, ?_⟩
  · show (s.workers.set i _).length = nw
    rw [List.length_set]
    exact hi.len
  · show (↑s.handled + ↑(((s.workers.set i { w with phase := WPhase.handling x }).map
        inflightOf).flatten) + ↑(toListA q') + ↑s.toPush : Multiset α) = ↑l
    rw [inflights_ms_gain s.workers i w _ x hw hfw hfw']
    have base := hi.perm
    rw [htl] at base
    simp only [inflights, ← Multiset.cons_coe, ← Multiset.singleton_add,
      ← Multiset.coe_add] at base ⊢
    rw [← base]
    abel
  · intro w2 hmem2 hcond
    have hmem3 : w2 ∈ s.workers.set i { w with phase := WPhase.handling x } := hmem2
    rcases List.mem_or_eq_of_mem_set hmem3 with hm | he
    · exact hi.busyC w2 hm hcond
    · subst he
      exact hi.busyC w (List.getElem?_mem hw) (Or.inl hp)
  · intro k hk
    replace hk : s.waiter = WaiterPc.checkBusy k := hk
    obtain ⟨-, hqe, -⟩ := hi.wait1 k hk
    rw [hqe] at htl
    simp at htl
  · intro hk
    replace hk : s.waiter = WaiterPc.returned := hk
    obtain ⟨-, hqe, -⟩ := hi.wait2 hk
    rw [hqe] at htl
    simp at htl
  · intro h1
    have hnw1 : s.workers.length ≤ 1 := by rw [hi.len]; exact h1
    obtain ⟨hws, hio⟩ := single_worker s.workers i w hw hnw1
    have hord := hi.ord h1
    simp only [inflights, hws, List.map_cons, List.map_nil, List.flatten_cons,
      List.flatten_nil, List.append_nil, hfw, List.nil_append] at hord
    rw [htl] at hord
    show s.handled ++ ((((s.workers.set i { w with phase := WPhase.handling x }).map
      inflightOf).flatten) ++ (toListA q' ++ s.toPush)) = l
    rw [hws, hio]
    simp only [List.set_cons_zero, List.map_cons, List.map_nil, List.flatten_cons,
      List.flatten_nil, List.append_nil, hfw']
    simpa [List.append_assoc] using hord
  · intro h0
    show s.handled = []
    exact hi.hzero h0
  · intro h0 hl
    exact absurd (no_worker_absurd s i w hi.len hw h0) (fun f => f)

theorem inv_handle {α : Type} {panics : α → Bool} {l : List α} {nw : Nat}
    (s : PoolState α) (i : Nat) (w : WorkerSt α) (x : α)
    (hi : Inv panics l nw s)
    (hw : s.workers[i]? = some w) (hp : w.phase = WPhase.handling x) :
    Inv panics l nw { s with
                      handled := s.handled ++ [x],
                      workers := s.workers.set i
                        { w with phase := if panics x then WPhase.outerClear else WPhase.innerClear } } := by
  have hlt : i < s.workers.length := (List.getElem?_eq_some.mp hw).1
  have hfw : inflightOf w = [x] := by unfold inflightOf; rw [hp]
  have hfw' : inflightOf { w with
      phase := if panics x then (WPhase.outerClear : WPhase α) else WPhase.innerClear } = [] := by
    unfold inflightOf
    cases hpx : panics x <;> simp [hpx]
  refine ⟨?_, ?_, ?_, ?_, ?_, ?_, ?_, ?_⟩
  · show (s.workers.set i _).length = nw
    rw [List.length_set]
    exact hi.len
  · show (↑(s.handled ++ [x]) + ↑(((s.workers.set i
        { w with phase := if panics x then WPhase.outerClear else WPhase.innerClear }).map
        inflightOf).flatten) + ↑(toListA s.backlog) + ↑s.toPush : Multiset α) = ↑l
    have hloss := inflights_ms_loss s.workers i w _ x hw hfw hfw'
    have base := hi.perm
    simp only [inflights] at base
    rw [← hloss] at base
    simp only [← Multiset.cons_coe, ← Multiset.singleton_add, ← Multiset.coe_add] at base ⊢
    rw [← base]
    abel
  · intro w2 hmem2 hcond
    have hmem3 : w2 ∈ s.workers.set i
        { w with phase := if panics x then WPhase.outerClear else WPhase.innerClear } := hmem2
    rcases List.mem_or_eq_of_mem_set hmem3 with hm | he
    · exact hi.busyC w2 hm hcond
    · subst he
      exact hi.busyC w (List.getElem?_mem hw) (Or.inr (Or.inl ⟨x, hp⟩))
  · intro k hk
    replace hk : s.waiter = WaiterPc.checkBusy k := hk
    obtain ⟨ht, hqe, hjs⟩ := hi.wait1 k hk
    refine ⟨ht, hqe, ?_⟩
    intro j w2 hj hjw
    have hjw2 : (s.workers.set i
        { w with phase := if panics x then WPhase.outerClear else WPhase.innerClear })[j]?
        = some w2 := hjw
    by_cases hji : j = i
    · subst hji
      exact absurd hp (hjs j w hj hw x)
    · rw [List.getElem?_set_ne (fun he => hji he.symm)] at hjw2
      exact hjs j w2 hj hjw2
  · intro hk
    replace hk : s.waiter = WaiterPc.returned := hk
    exact absurd hp ((hi.wait2 hk).2.2 i w hw x)
  · intro h1
    have hnw1 : s.workers.length ≤ 1 := by rw [hi.len]; exact h1
    obtain ⟨hws, hio⟩ := single_worker s.workers i w hw hnw1
    have hord := hi.ord h1
    simp only [inflights, hws, List.map_cons, List.map_nil, List.flatten_cons,
      List.flatten_nil, List.append_nil, hfw] at hord
    show (s.handled ++ [x]) ++ ((((s.workers.set i
      { w with phase := if panics x then WPhase.outerClear else WPhase.innerClear }).map
      inflightOf).flatten) ++ (toListA s.backlog ++ s.toPush)) = l
    rw [hws, hio]
    simp only [List.set_cons_zero, List.map_cons, List.map_nil, List.flatten_cons,
      List.flatten_nil, List.append_nil, hfw', List.nil_append]
    simpa [List.append_assoc] using hord
  · intro h0
    exact absurd (no_worker_absurd s i w hi.len hw h0) (fun f => f)
  · intro h0 hl
    exact absurd (no_worker_absurd s i w hi.len hw h0) (fun f => f)

end Ruster

namespace Ruster

theorem inv_step {α : Type} {panics : α → Bool} {l : List α} {nw : Nat}
    {s s' : PoolState α} (hs : Step panics s s') (hi : Inv panics l nw s) :
    Inv panics l nw s' := by
  cases hs with
  | pushStep x rest h => exact inv_push s x rest hi h
  | cancelStep i w hw =>
    exact inv_set_preserved s i w _ s.backlog hi hw rfl rfl
      (fun hc => hi.busyC w (List.getElem?_mem hw) hc)
      (fun h => h)
  | checkCancelTrue i w hw hp hc =>
    refine inv_set_preserved s i w _ s.backlog hi hw rfl ?_ ?_ ?_
    · unfold inflightOf
      rw [hp]
    · intro hcond
      rcases hcond with h | ⟨y, h⟩ | h <;> simp at h
    · intro _ x h
      simp at h
  | checkCancelFalse i w hw hp hc =>
    refine inv_set_preserved s i w _ s.backlog hi hw rfl ?_ ?_ ?_
    · unfold inflightOf
      rw [hp]
    · intro hcond
      rcases hcond with h | ⟨y, h⟩ | h <;> simp at h
    · intro _ x h
      simp at h
  | setBusyStep i w hw hp =>
    refine inv_set_preserved s i w _ s.backlog hi hw rfl ?_ ?_ ?_
    · unfold inflightOf
      rw [hp]
    · intro _
      rfl
    · intro _ x h
      simp at h
  | popSome i w x q' hw hp hq => exact inv_popSome s i w x q' hi hw hp hq
  | popNone i w q' hw hp hq =>
    obtain ⟨h1, h2⟩ := arc_pop_none_toList _ _ hq
    refine inv_set_preserved s i w _ q' hi hw (h2.trans h1.symm) ?_ ?_ ?_
    · unfold inflightOf
      rw [hp]
    · intro _
      exact hi.busyC w (List.getElem?_mem hw) (Or.inl hp)
    · intro _ x h
      simp at h
  | handleStep i w x hw hp => exact inv_handle s i w x hi hw hp
  | innerClearStep i w hw hp =>
    refine inv_set_preserved s i w _ s.backlog hi hw rfl ?_ ?_ ?_
    · unfold inflightOf
      rw [hp]
    · intro hcond
      rcases hcond with h | ⟨y, h⟩ | h <;> simp at h
    · intro _ x h
      simp at h
  | outerClearStep i w hw hp =>
    refine inv_set_preserved s i w _ s.backlog hi hw rfl ?_ ?_ ?_
    · unfold inflightOf
      rw [hp]
    · intro hcond
      rcases hcond with h | ⟨y, h⟩ | h <;> simp at h
    · intro _ x h
      simp at h
  | sleepStep i w hw hp =>
    refine inv_set_preserved s i w _ s.backlog hi hw rfl ?_ ?_ ?_
    · unfold inflightOf
      rw [hp]
    · intro hcond
      rcases hcond with h | ⟨y, h⟩ | h <;> simp at h
    · intro _ x h
      simp at h
  | wEmptyTrue hp ht hq => exact inv_wEmptyTrue s hi hp ht hq
  | wEmptyFalse hp ht hq => exact inv_wEmptyFalse s hi hp ht
  | wBusyTrue k w hp ht hw hb => exact inv_wBusyTrue s hi
  | wBusyFalse k w hp ht hw hb => exact inv_wBusyFalse s k w hi hp hw hb
  | wBusyDone k hp ht hk => exact inv_wBusyDone s k hi hp hk
  | wSleepStep hp ht => exact inv_wSleep s hi

theorem inv_reachable {α : Type} {panics : α → Bool} {l : List α} {nw : Nat}
    {s : PoolState α} (h : Reachable panics l nw s) : Inv panics l nw s := by
  induction h with
  | refl => exact inv_init panics l nw
  | tail hr hstep ih => exact inv_step hstep ih

end Ruster

namespace Ruster

/-- C4: FIFO order of the shared queue — `Queue::push` appends to the tail
of the abstract pending sequence and `Queue::pop` removes exactly its head,
leaving the remaining elements unchanged and in order, for every queue
state (hence for every interleaving of pushes and pops); consequently, in a
pool with concurrency 1, the handled list of any reachable state is a
prefix of the pushed sequence: items are handled in exactly push order. -/
theorem queue_fifo {α : Type} (q : Queue α) (x : α) (panics : α → Bool)
    (l : List α) (s : PoolState α) :
    toListQ (q.push x) = toListQ q ++ [x] ∧
    (q.pop).1 = (toListQ q).head? ∧
    toListQ (q.pop).2 = (toListQ q).tail ∧
    (Reachable panics l 1 s → ∃ rest, s.handled ++ rest = l) := by
  refine ⟨toListQ_push q x, pop_fst q, pop_snd q, fun h => ?_⟩
  have hi := inv_reachable h
  exact ⟨inflights s ++ (toListA s.backlog ++ s.toPush), hi.ord (le_refl 1)⟩

/-- Witness for `queue_fifo` at concrete inputs. -/
theorem queue_fifo_witness :
    toListQ (Queue.push (Queue.new : Queue Nat) 3) = toListQ (Queue.new : Queue Nat) ++ [3] ∧
    ∃ rest, (initState [3] 1 : PoolState Nat).handled ++ rest = [3] := by
  have h := queue_fifo (Queue.new : Queue Nat) 3 (fun _ => false) [3] (initState [3] 1)
  exact ⟨h.1, h.2.2.2 Relation.ReflTransGen.refl⟩

/-- C7: `ArcQueue::pop` (delegating to `Queue::pop` under the lock) returns
`None` exactly when the queue is empty; on a non-empty queue it removes and
returns exactly the head element, leaving the remaining elements unchanged
and in order.  The operation is total in the model; the only failure mode
in the source is the poisoned-lock panic, which is a fatal condition
outside the sequential semantics. -/
theorem pop_spec {α : Type} (q : ArcQueue α) (x : α) (t : List α) :
    ((q.pop).1 = none ↔ toListA q = []) ∧
    ((q.pop).1 = none ↔ q.empty = true) ∧
    (toListA q = x :: t → (q.pop).1 = some x ∧ toListA (q.pop).2 = t) := by
  have h1 := arc_pop_fst q
  have h2 := arc_pop_snd q
  refine ⟨?_, ?_, ?_⟩
  · rw [h1]
    exact List.head?_eq_none_iff
  · rw [h1, arc_empty_iff]
    exact List.head?_eq_none_iff
  · intro ht
    rw [h1, h2, ht]
    exact ⟨rfl, rfl⟩

/-- Witness for `pop_spec` at a one-element queue. -/
theorem pop_spec_witness :
    (ArcQueue.pop (ArcQueue.push (ArcQueue.new : ArcQueue Nat) 1)).1 = some 1 ∧
    toListA (ArcQueue.pop (ArcQueue.push (ArcQueue.new : ArcQueue Nat) 1)).2 = [] :=
  (pop_spec (ArcQueue.push (ArcQueue.new : ArcQueue Nat) 1) 1 []).2.2 rfl

/-- C8: `Queue::is_empty` is true exactly when both internal stacks are
empty, equivalently when the abstract pending sequence is empty;
`TaskQueue::is_empty` merely delegates to the shared backlog, so it depends
only on the queue and not on any worker's state (whether mid-handler or
not). -/
theorem is_empty_spec {α : Type} (q : Queue α) (s s2 : PoolState α) :
    (q.empty = true ↔ q.items = [] ∧ q.backlog = []) ∧
    (q.empty = true ↔ toListQ q = []) ∧
    poolIsEmpty s = s.backlog.empty ∧
    (s.backlog = s2.backlog → poolIsEmpty s = poolIsEmpty s2) := by
  refine ⟨queue_empty_iff q, queue_empty_iff_toListQ q, rfl, ?_⟩
  intro h
  unfold poolIsEmpty
  rw [h]

/-- Witness for `is_empty_spec`. -/
theorem is_empty_spec_witness :
    ((Queue.new : Queue Nat).empty = true ↔ toListQ (Queue.new : Queue Nat) = []) ∧
    poolIsEmpty (initState ([] : List Nat) 0) = poolIsEmpty (initState ([] : List Nat) 0) := by
  have h := is_empty_spec (Queue.new : Queue Nat) (initState ([] : List Nat) 0)
    (initState ([] : List Nat) 0)
  exact ⟨h.2.1, h.2.2.2 rfl⟩

theorem wait_spec_frame {α : Type} (s : PoolState α) (k : Nat) :
    (s.waiter = WaiterPc.checkEmpty → s.waiter = WaiterPc.checkBusy 0 →
      s.backlog.empty = true ∧ s.toPush = []) ∧
    (s.waiter = WaiterPc.checkEmpty → s.backlog.empty = false →
      s.waiter = WaiterPc.checkEmpty ∨ s.waiter = WaiterPc.waitSleep) ∧
    (s.waiter = WaiterPc.checkBusy k → s.waiter = WaiterPc.checkBusy (k + 1) →
      ∃ w, s.workers[k]? = some w ∧ w.busy = false) ∧
    (s.waiter = WaiterPc.checkBusy k → (∃ w, s.workers[k]? = some w ∧ w.busy = true) →
      s.waiter = WaiterPc.checkBusy k ∨ s.waiter = WaiterPc.waitSleep) ∧
    (s.waiter = WaiterPc.returned →
      s.waiter = WaiterPc.returned ∨
        ∃ j, s.waiter = WaiterPc.checkBusy j ∧ s.workers.length ≤ j) := by
  refine ⟨?_, ?_, ?_, ?_, ?_⟩
  · intro h1 h2
    rw [h1] at h2
    simp at h2
  · intro h1 _
    exact Or.inl h1
  · intro h1 h2
    rw [h1] at h2
    injection h2 with h3
    omega
  · intro h1 _
    exact Or.inl h1
  · intro h1
    exact Or.inl h1

/-- C5: structure of the `wait()` polling loop.  In any transition of the
system: the waiter advances from its `is_empty` read to scanning busy flags
only when that read saw an empty queue (with all pushes done); it advances
past worker `k` only when it read that worker's busy flag as `false`; a
read of a non-empty queue or of a set busy flag sends it to the 100ms sleep
(after which it re-checks), never to returning; and the only transition
into the returned state is from a busy-flag scan that has passed every
worker.  So `wait()` returns only after one full check in which `is_empty`
was observed true and every worker's busy flag was observed false, and it
never returns out of a check that observed a non-empty backlog or a busy
worker. -/
theorem wait_check_spec {α : Type} (panics : α → Bool) (s s2 : PoolState α) (k : Nat)
    (h : Step panics s s2) :
    (s.waiter = WaiterPc.checkEmpty → s2.waiter = WaiterPc.checkBusy 0 →
      s.backlog.empty = true ∧ s.toPush = []) ∧
    (s.waiter = WaiterPc.checkEmpty → s.backlog.empty = false →
      s2.waiter = WaiterPc.checkEmpty ∨ s2.waiter = WaiterPc.waitSleep) ∧
    (s.waiter = WaiterPc.checkBusy k → s2.waiter = WaiterPc.checkBusy (k + 1) →
      ∃ w, s.workers[k]? = some w ∧ w.busy = false) ∧
    (s.waiter = WaiterPc.checkBusy k → (∃ w, s.workers[k]? = some w ∧ w.busy = true) →
      s2.waiter = WaiterPc.checkBusy k ∨ s2.waiter = WaiterPc.waitSleep) ∧
    (s2.waiter = WaiterPc.returned →
      s.waiter = WaiterPc.returned ∨
        ∃ j, s.waiter = WaiterPc.checkBusy j ∧ s.workers.length ≤ j) := by
  cases h with
  | pushStep x rest hp => exact wait_spec_frame s k
  | cancelStep i w hw => exact wait_spec_frame s k
  | checkCancelTrue i w hw hp hc => exact wait_spec_frame s k
  | checkCancelFalse i w hw hp hc => exact wait_spec_frame s k
  | setBusyStep i w hw hp => exact wait_spec_frame s k
  | popSome i w x q' hw hp hq => exact wait_spec_frame s k
  | popNone i w q' hw hp hq => exact wait_spec_frame s k
  | handleStep i w x hw hp => exact wait_spec_frame s k
  | innerClearStep i w hw hp => exact wait_spec_frame s k
  | outerClearStep i w hw hp => exact wait_spec_frame s k
  | sleepStep i w hw hp => exact wait_spec_frame s k
  | wEmptyTrue hp ht hq =>
    refine ⟨fun _ _ => ⟨hq, ht⟩, ?_, ?_, ?_, ?_⟩
    · intro _ h2
      rw [hq] at h2
      simp at h2
    · intro h1 _
      rw [hp] at h1
      simp at h1
    · intro h1 _
      rw [hp] at h1
      simp at h1
    · intro h5
      simp at h5
  | wEmptyFalse hp ht hq =>
    refine ⟨?_, fun _ _ => Or.inr rfl, ?_, ?_, ?_⟩
    · intro _ h2
      simp at h2
    · intro h1 _
      rw [hp] at h1
      simp at h1
    · intro h1 _
      rw [hp] at h1
      simp at h1
    · intro h5
      simp at h5
  | wBusyTrue k2 w2 hp ht hw hb =>
    refine ⟨?_, ?_, ?_, fun _ _ => Or.inr rfl, ?_⟩
    · intro h1 _
      rw [hp] at h1
      simp at h1
    · intro h1 _
      rw [hp] at h1
      simp at h1
    · intro _ h2
      simp at h2
    · intro h5
      simp at h5
  | wBusyFalse k2 w2 hp ht hw hb =>
    refine ⟨?_, ?_, ?_, ?_, ?_⟩
    · intro h1 _
      rw [hp] at h1
      simp at h1
    · intro h1 _
      rw [hp] at h1
      simp at h1
    · intro h1 _
      rw [hp] at h1
      injection h1 with he
      subst he
      exact ⟨w2, hw, hb⟩
    · intro h1 hex
      exfalso
      rw [hp] at h1
      injection h1 with he
      subst he
      obtain ⟨w3, hw3, hb3⟩ := hex
      rw [hw] at hw3
      injection hw3 with he2
      rw [← he2] at hb3
      rw [hb3] at hb
      cases hb
    · intro h5
      simp at h5
  | wBusyDone k2 hp ht hk =>
    refine ⟨?_, ?_, ?_, ?_, ?_⟩
    · intro h1 _
      rw [hp] at h1
      simp at h1
    · intro h1 _
      rw [hp] at h1
      simp at h1
    · intro _ h2
      simp at h2
    · intro h1 hex
      exfalso
      rw [hp] at h1
      injection h1 with he
      subst he
      obtain ⟨w3, hw3, -⟩ := hex
      have := (List.getElem?_eq_some.mp hw3).1
      omega
    · intro _
      exact Or.inr ⟨k2, hp, hk⟩
  | wSleepStep hp ht =>
    refine ⟨?_, fun _ _ => Or.inl rfl, ?_, ?_, ?_⟩
    · intro _ h2
      simp at h2
    · intro _ h2
      simp at h2
    · intro h1 _
      rw [hp] at h1
      simp at h1
    · intro h5
      simp at h5

/-- Witness for `wait_check_spec`: the concrete transition of the waiter
past its `is_empty` check on a freshly built empty pool. -/
theorem wait_check_spec_witness :
    (initState ([] : List Nat) 0).backlog.empty = true ∧
    (initState ([] : List Nat) 0).toPush = [] := by
  have hstep : Step (fun _ => false) (initState ([] : List Nat) 0)
      { initState ([] : List Nat) 0 with waiter := WaiterPc.checkBusy 0 } :=
    Step.wEmptyTrue (initState [] 0) rfl rfl rfl
  exact (wait_check_spec (fun _ => false) (initState [] 0) _ 0 hstep).1 rfl rfl

end Ruster

namespace Ruster

/-- C1: Conservation — for any sequence of pushes (the items of `l`, pushes
linearised at the queue lock and completed before `wait()` begins) into a
pool with `task_count ≥ 1`, in every reachable state in which `wait()` has
returned, the recorded handler invocations are exactly a permutation of the
pushed items: the handler was invoked exactly `l.length` times, each pushed
item handled exactly once, no duplication and no loss.  (The proof does not
even need `task_count ≥ 1`: with zero workers and `l ≠ []`, `wait()` never
returns, and with `l = []` the statement is trivial.) -/
theorem conservation {α : Type} (panics : α → Bool) (l : List α) (nw : Nat)
    (s : PoolState α) (hn : 1 ≤ nw) (h : Reachable panics l nw s)
    (hr : s.waiter = WaiterPc.returned) :
    s.handled.Perm l ∧ s.handled.length = l.length := by
  have hi := inv_reachable h
  obtain ⟨ht, hq, hjs⟩ := hi.wait2 hr
  have hinf : inflights s = [] := by
    unfold inflights
    rw [List.flatten_eq_nil_iff]
    intro lx hlx
    rw [List.mem_map] at hlx
    obtain ⟨w, hwmem, hweq⟩ := hlx
    obtain ⟨j, hj⟩ := List.mem_iff_getElem?.mp hwmem
    subst hweq
    cases hph : w.phase with
    | handling y => exact absurd hph (hjs j w hj y)
    | checking => simp [inflightOf, hph]
    | setBusy => simp [inflightOf, hph]
    | popping => simp [inflightOf, hph]
    | innerClear => simp [inflightOf, hph]
    | outerClear => simp [inflightOf, hph]
    | sleeping => simp [inflightOf, hph]
    | finished => simp [inflightOf, hph]
  have hperm := hi.perm
  rw [hinf, hq, ht] at hperm
  simp at hperm
  exact ⟨hperm, hperm.length_eq⟩

/-- Witness for `conservation`: a complete concrete run — push `5`, let the
single worker pop and handle it, clear its flags, then let the waiter pass
a full clean check and return. -/
theorem conservation_witness :
    drainedState.handled.Perm [5] ∧ drainedState.handled.length = ([5] : List Nat).length := by
  apply conservation (fun _ => false) [5] 1 drainedState (le_refl 1) ?_ rfl
  have r0 : Reachable (fun _ => false) [5] 1 (initState [5] 1) := Relation.ReflTransGen.refl
  have r1 : Reachable (fun _ => false) [5] 1
      ⟨[], ⟨⟨[], [5]⟩⟩, [⟨WPhase.checking, false, false⟩], [], WaiterPc.checkEmpty⟩ :=
    Relation.ReflTransGen.tail r0 (Step.pushStep (initState [5] 1) 5 [] rfl)
  have r2 : Reachable (fun _ => false) [5] 1
      ⟨[], ⟨⟨[], [5]⟩⟩, [⟨WPhase.setBusy, false, false⟩], [], WaiterPc.checkEmpty⟩ :=
    Relation.ReflTransGen.tail r1 (Step.checkCancelFalse
      ⟨[], ⟨⟨[], [5]⟩⟩, [⟨WPhase.checking, false, false⟩], [], WaiterPc.checkEmpty⟩
      0 ⟨WPhase.checking, false, false⟩ rfl rfl rfl)
  have r3 : Reachable (fun _ => false) [5] 1
      ⟨[], ⟨⟨[], [5]⟩⟩, [⟨WPhase.popping, true, false⟩], [], WaiterPc.checkEmpty⟩ :=
    Relation.ReflTransGen.tail r2 (Step.setBusyStep
      ⟨[], ⟨⟨[], [5]⟩⟩, [⟨WPhase.setBusy, false, false⟩], [], WaiterPc.checkEmpty⟩
      0 ⟨WPhase.setBusy, false, false⟩ rfl rfl)
  have r4 : Reachable (fun _ => false) [5] 1
      ⟨[], ⟨⟨[], []⟩⟩, [⟨WPhase.handling 5, true, false⟩], [], WaiterPc.checkEmpty⟩ :=
    Relation.ReflTransGen.tail r3 (Step.popSome
      ⟨[], ⟨⟨[], [5]⟩⟩, [⟨WPhase.popping, true, false⟩], [], WaiterPc.checkEmpty⟩
      0 ⟨WPhase.popping, true, false⟩ 5 ⟨⟨[], []⟩⟩ rfl rfl rfl)
  have r5 : Reachable (fun _ => false) [5] 1
      ⟨[], ⟨⟨[], []⟩⟩, [⟨WPhase.innerClear, true, false⟩], [5], WaiterPc.checkEmpty⟩ :=
    Relation.ReflTransGen.tail r4 (Step.handleStep
      ⟨[], ⟨⟨[], []⟩⟩, [⟨WPhase.handling 5, true, false⟩], [], WaiterPc.checkEmpty⟩
      0 ⟨WPhase.handling 5, true, false⟩ 5 rfl rfl)
  have r6 : Reachable (fun _ => false) [5] 1
      ⟨[], ⟨⟨[], []⟩⟩, [⟨WPhase.outerClear, false, false⟩], [5], WaiterPc.checkEmpty⟩ :=
    Relation.ReflTransGen.tail r5 (Step.innerClearStep
      ⟨[], ⟨⟨[], []⟩⟩, [⟨WPhase.innerClear, true, false⟩], [5], WaiterPc.checkEmpty⟩
      0 ⟨WPhase.innerClear, true, false⟩ rfl rfl)
  have r7 : Reachable (fun _ => false) [5] 1
      ⟨[], ⟨⟨[], []⟩⟩, [⟨WPhase.sleeping, false, false⟩], [5], WaiterPc.checkEmpty⟩ :=
    Relation.ReflTransGen.tail r6 (Step.outerClearStep
      ⟨[], ⟨⟨[], []⟩⟩, [⟨WPhase.outerClear, false, false⟩], [5], WaiterPc.checkEmpty⟩
      0 ⟨WPhase.outerClear, false, false⟩ rfl rfl)
  have r8 : Reachable (fun _ => false) [5] 1
      ⟨[], ⟨⟨[], []⟩⟩, [⟨WPhase.sleeping, false, false⟩], [5], WaiterPc.checkBusy 0⟩ :=
    Relation.ReflTransGen.tail r7 (Step.wEmptyTrue
      ⟨[], ⟨⟨[], []⟩⟩, [⟨WPhase.sleeping, false, false⟩], [5], WaiterPc.checkEmpty⟩ rfl rfl rfl)
  have r9 : Reachable (fun _ => false) [5] 1
      ⟨[], ⟨⟨[], []⟩⟩, [⟨WPhase.sleeping, false, false⟩], [5], WaiterPc.checkBusy 1⟩ :=
    Relation.ReflTransGen.tail r8 (Step.wBusyFalse
      ⟨[], ⟨⟨[], []⟩⟩, [⟨WPhase.sleeping, false, false⟩], [5], WaiterPc.checkBusy 0⟩
      0 ⟨WPhase.sleeping, false, false⟩ rfl rfl rfl rfl)
  exact Relation.ReflTransGen.tail r9 (Step.wBusyDone
    ⟨[], ⟨⟨[], []⟩⟩, [⟨WPhase.sleeping, false, false⟩], [5], WaiterPc.checkBusy 1⟩
    1 rfl rfl (by decide))

/-- C2 counterexample: the claim is false on two counts.  First, in a pool
into which nothing was ever pushed, after two transitions of its single
worker (cancel check, then the `is_processing := true` write that
`Task::new` performs at the top of every iteration, before the closure
pops), the pool is reachable with `is_busy()` reading true while the queue
is empty, nothing was ever handled, and no worker holds any item — so the
busy flag is not set `immediately before the handler is invoked on a popped
item`, and `is_busy()` can be true while a worker merely polls an empty
queue.  Second, continuing a fully drained run three transitions past the
return of `wait()`, the pool is reachable with `wait()` returned and
`is_busy()` true again — so `is_busy()` is not false after `wait()`
returns. -/
theorem busy_without_handler_cex :
    (Reachable (fun _ => false) ([] : List Nat) 1 pollBusyState ∧
      poolIsBusy pollBusyState = true ∧
      inflights pollBusyState = [] ∧
      pollBusyState.handled = [] ∧
      pollBusyState.backlog.empty = true) ∧
    (Reachable (fun _ => false) [5] 1 postWaitBusyState ∧
      postWaitBusyState.waiter = WaiterPc.returned ∧
      poolIsBusy postWaitBusyState = true ∧
      inflights postWaitBusyState = []) := by
  constructor
  · refine ⟨?_, rfl, rfl, rfl, rfl⟩
    have r1 : Reachable (fun _ => false) ([] : List Nat) 1
        ⟨[], ⟨⟨[], []⟩⟩, [⟨WPhase.setBusy, false, false⟩], [], WaiterPc.checkEmpty⟩ :=
      Relation.ReflTransGen.tail Relation.ReflTransGen.refl
        (Step.checkCancelFalse (initState [] 1) 0 ⟨WPhase.checking, false, false⟩ rfl rfl rfl)
    exact Relation.ReflTransGen.tail r1
      (Step.setBusyStep ⟨[], ⟨⟨[], []⟩⟩, [⟨WPhase.setBusy, false, false⟩], [], WaiterPc.checkEmpty⟩
        0 ⟨WPhase.setBusy, false, false⟩ rfl rfl)
  · refine ⟨?_, rfl, rfl, rfl⟩
    have r0 : Reachable (fun _ => false) [5] 1 (initState [5] 1) := Relation.ReflTransGen.refl
    have r1 : Reachable (fun _ => false) [5] 1
        ⟨[], ⟨⟨[], [5]⟩⟩, [⟨WPhase.checking, false, false⟩], [], WaiterPc.checkEmpty⟩ :=
      Relation.ReflTransGen.tail r0 (Step.pushStep (initState [5] 1) 5 [] rfl)
    have r2 : Reachable (fun _ => false) [5] 1
        ⟨[], ⟨⟨[], [5]⟩⟩, [⟨WPhase.setBusy, false, false⟩], [], WaiterPc.checkEmpty⟩ :=
      Relation.ReflTransGen.tail r1 (Step.checkCancelFalse
        ⟨[], ⟨⟨[], [5]⟩⟩, [⟨WPhase.checking, false, false⟩], [], WaiterPc.checkEmpty⟩
        0 ⟨WPhase.checking, false, false⟩ rfl rfl rfl)
    have r3 : Reachable (fun _ => false) [5] 1
        ⟨[], ⟨⟨[], [5]⟩⟩, [⟨WPhase.popping, true, false⟩], [], WaiterPc.checkEmpty⟩ :=
      Relation.ReflTransGen.tail r2 (Step.setBusyStep
        ⟨[], ⟨⟨[], [5]⟩⟩, [⟨WPhase.setBusy, false, false⟩], [], WaiterPc.checkEmpty⟩
        0 ⟨WPhase.setBusy, false, false⟩ rfl rfl)
    have r4 : Reachable (fun _ => false) [5] 1
        ⟨[], ⟨⟨[], []⟩⟩, [⟨WPhase.handling 5, true, false⟩], [], WaiterPc.checkEmpty⟩ :=
      Relation.ReflTransGen.tail r3 (Step.popSome
        ⟨[], ⟨⟨[], [5]⟩⟩, [⟨WPhase.popping, true, false⟩], [], WaiterPc.checkEmpty⟩
        0 ⟨WPhase.popping, true, false⟩ 5 ⟨⟨[], []⟩⟩ rfl rfl rfl)
    have r5 : Reachable (fun _ => false) [5] 1
        ⟨[], ⟨⟨[], []⟩⟩, [⟨WPhase.innerClear, true, false⟩], [5], WaiterPc.checkEmpty⟩ :=
      Relation.ReflTransGen.tail r4 (Step.handleStep
        ⟨[], ⟨⟨[], []⟩⟩, [⟨WPhase.handling 5, true, false⟩], [], WaiterPc.checkEmpty⟩
        0 ⟨WPhase.handling 5, true, false⟩ 5 rfl rfl)
    have r6 : Reachable (fun _ => false) [5] 1
        ⟨[], ⟨⟨[], []⟩⟩, [⟨WPhase.outerClear, false, false⟩], [5], WaiterPc.checkEmpty⟩ :=
      Relation.ReflTransGen.tail r5 (Step.innerClearStep
        ⟨[], ⟨⟨[], []⟩⟩, [⟨WPhase.innerClear, true, false⟩], [5], WaiterPc.checkEmpty⟩
        0 ⟨WPhase.innerClear, true, false⟩ rfl rfl)
    have r7 : Reachable (fun _ => false) [5] 1
        ⟨[], ⟨⟨[], []⟩⟩, [⟨WPhase.sleeping, false, false⟩], [5], WaiterPc.checkEmpty⟩ :=
      Relation.ReflTransGen.tail r6 (Step.outerClearStep
        ⟨[], ⟨⟨[], []⟩⟩, [⟨WPhase.outerClear, false, false⟩], [5], WaiterPc.checkEmpty⟩
        0 ⟨WPhase.outerClear, false, false⟩ rfl rfl)
    have r8 : Reachable (fun _ => false) [5] 1
        ⟨[], ⟨⟨[], []⟩⟩, [⟨WPhase.sleeping, false, false⟩], [5], WaiterPc.checkBusy 0⟩ :=
      Relation.ReflTransGen.tail r7 (Step.wEmptyTrue
        ⟨[], ⟨⟨[], []⟩⟩, [⟨WPhase.sleeping, false, false⟩], [5], WaiterPc.checkEmpty⟩ rfl rfl rfl)
    have r9 : Reachable (fun _ => false) [5] 1
        ⟨[], ⟨⟨[], []⟩⟩, [⟨WPhase.sleeping, false, false⟩], [5], WaiterPc.checkBusy 1⟩ :=
      Relation.ReflTransGen.tail r8 (Step.wBusyFalse
        ⟨[], ⟨⟨[], []⟩⟩, [⟨WPhase.sleeping, false, false⟩], [5], WaiterPc.checkBusy 0⟩
        0 ⟨WPhase.sleeping, false, false⟩ rfl rfl rfl rfl)
    have r10 : Reachable (fun _ => false) [5] 1
        ⟨[], ⟨⟨[], []⟩⟩, [⟨WPhase.sleeping, false, false⟩], [5], WaiterPc.returned⟩ :=
      Relation.ReflTransGen.tail r9 (Step.wBusyDone
        ⟨[], ⟨⟨[], []⟩⟩, [⟨WPhase.sleeping, false, false⟩], [5], WaiterPc.checkBusy 1⟩
        1 rfl rfl (by decide))
    have r11 : Reachable (fun _ => false) [5] 1
        ⟨[], ⟨⟨[], []⟩⟩, [⟨WPhase.checking, false, false⟩], [5], WaiterPc.returned⟩ :=
      Relation.ReflTransGen.tail r10 (Step.sleepStep
        ⟨[], ⟨⟨[], []⟩⟩, [⟨WPhase.sleeping, false, false⟩], [5], WaiterPc.returned⟩
        0 ⟨WPhase.sleeping, false, false⟩ rfl rfl)
    have r12 : Reachable (fun _ => false) [5] 1
        ⟨[], ⟨⟨[], []⟩⟩, [⟨WPhase.setBusy, false, false⟩], [5], WaiterPc.returned⟩ :=
      Relation.ReflTransGen.tail r11 (Step.checkCancelFalse
        ⟨[], ⟨⟨[], []⟩⟩, [⟨WPhase.checking, false, false⟩], [5], WaiterPc.returned⟩
        0 ⟨WPhase.checking, false, false⟩ rfl rfl rfl)
    exact Relation.ReflTransGen.tail r12 (Step.setBusyStep
      ⟨[], ⟨⟨[], []⟩⟩, [⟨WPhase.setBusy, false, false⟩], [5], WaiterPc.returned⟩
      0 ⟨WPhase.setBusy, false, false⟩ rfl rfl)

/-- C2 (amended): the busy flag is set at the top of every loop iteration,
before the worker attempts to pop, and cleared only after the closure (pop
plus handler) completes; consequently the flag is true throughout every
handler invocation — in every reachable state, a worker that is mid-handler
on a popped item has its busy flag set, and `is_busy()` reads true.  (But
the flag may also be true while a worker merely polls an empty queue, and
`is_busy()` may read true again after `wait()` returns, as
`busy_without_handler_cex` shows.) -/
theorem busy_covers_handling {α : Type} (panics : α → Bool) (l : List α) (nw : Nat)
    (s : PoolState α) (i : Nat) (w : WorkerSt α) (x : α)
    (h : Reachable panics l nw s) (hw : s.workers[i]? = some w)
    (hp : w.phase = WPhase.handling x) :
    w.busy = true ∧ poolIsBusy s = true := by
  have hi := inv_reachable h
  have hb := hi.busyC w (List.getElem?_mem hw) (Or.inr (Or.inl ⟨x, hp⟩))
  refine ⟨hb, ?_⟩
  unfold poolIsBusy
  rw [List.any_eq_true]
  exact ⟨w, List.getElem?_mem hw, hb⟩

/-- Witness for `busy_covers_handling`: a single worker that has popped the
item `5` and is about to run the handler; its flag and the pool's
`is_busy()` read true. -/
theorem busy_covers_handling_witness :
    (⟨WPhase.handling 5, true, false⟩ : WorkerSt Nat).busy = true ∧
    poolIsBusy handlingState = true := by
  apply busy_covers_handling (fun _ => false) [5] 1 handlingState 0
    ⟨WPhase.handling 5, true, false⟩ 5 ?_ rfl rfl
  have r1 : Reachable (fun _ => false) [5] 1
      ⟨[], ⟨⟨[], [5]⟩⟩, [⟨WPhase.checking, false, false⟩], [], WaiterPc.checkEmpty⟩ :=
    Relation.ReflTransGen.tail Relation.ReflTransGen.refl
      (Step.pushStep (initState [5] 1) 5 [] rfl)
  have r2 : Reachable (fun _ => false) [5] 1
      ⟨[], ⟨⟨[], [5]⟩⟩, [⟨WPhase.setBusy, false, false⟩], [], WaiterPc.checkEmpty⟩ :=
    Relation.ReflTransGen.tail r1 (Step.checkCancelFalse
      ⟨[], ⟨⟨[], [5]⟩⟩, [⟨WPhase.checking, false, false⟩], [], WaiterPc.checkEmpty⟩
      0 ⟨WPhase.checking, false, false⟩ rfl rfl rfl)
  have r3 : Reachable (fun _ => false) [5] 1
      ⟨[], ⟨⟨[], [5]⟩⟩, [⟨WPhase.popping, true, false⟩], [], WaiterPc.checkEmpty⟩ :=
    Relation.ReflTransGen.tail r2 (Step.setBusyStep
      ⟨[], ⟨⟨[], [5]⟩⟩, [⟨WPhase.setBusy, false, false⟩], [], WaiterPc.checkEmpty⟩
      0 ⟨WPhase.setBusy, false, false⟩ rfl rfl)
  exact Relation.ReflTransGen.tail r3 (Step.popSome
    ⟨[], ⟨⟨[], [5]⟩⟩, [⟨WPhase.popping, true, false⟩], [], WaiterPc.checkEmpty⟩
    0 ⟨WPhase.popping, true, false⟩ 5 ⟨⟨[], []⟩⟩ rfl rfl rfl)

/-- C3: Panic isolation — in any reachable state in which worker `i` is
about to invoke the handler on a popped item `x` that panics, the handler
invocation is still one transition of the system (recorded in `handled`
exactly once — the item is consumed, never retried or surfaced), after
which the panic path skips the inner clear and lands on the clear after
`catch_unwind`; the next transition of that worker resets its busy flag to
false and sends it to the sleep before the next loop iteration.  The
resulting state is again reachable (the worker thread survives with its
loop intact, its phase `sleeping` rather than `finished`, so
`is_finished()` stays false and later items are processed by the same
worker), and the backlog is untouched by the failure. -/
theorem panic_isolation {α : Type} (panics : α → Bool) (l : List α) (nw : Nat)
    (s : PoolState α) (i : Nat) (w : WorkerSt α) (x : α)
    (h : Reachable panics l nw s) (hw : s.workers[i]? = some w)
    (hp : w.phase = WPhase.handling x) (hx : panics x = true) :
    Step panics s
      { s with handled := s.handled ++ [x],
               workers := s.workers.set i ⟨WPhase.outerClear, w.busy, w.cancelled⟩ } ∧
    Step panics
      { s with handled := s.handled ++ [x],
               workers := s.workers.set i ⟨WPhase.outerClear, w.busy, w.cancelled⟩ }
      { s with handled := s.handled ++ [x],
               workers := s.workers.set i ⟨WPhase.sleeping, false, w.cancelled⟩ } ∧
    Reachable panics l nw
      { s with handled := s.handled ++ [x],
               workers := s.workers.set i ⟨WPhase.sleeping, false, w.cancelled⟩ } ∧
    (s.workers.set i (⟨WPhase.sleeping, false, w.cancelled⟩ : WorkerSt α))[i]?
      = some ⟨WPhase.sleeping, false, w.cancelled⟩ := by
  have hlt : i < s.workers.length := (List.getElem?_eq_some.mp hw).1
  have h1 : Step panics s
      { s with handled := s.handled ++ [x],
               workers := s.workers.set i ⟨WPhase.outerClear, w.busy, w.cancelled⟩ } := by
    have hst := @Step.handleStep α panics s i w x hw hp
    simpa [hx] using hst
  have hw2 : ({ s with handled := s.handled ++ [x],
                       workers := s.workers.set i
                         ⟨WPhase.outerClear, w.busy, w.cancelled⟩ } :
      PoolState α).workers[i]? = some ⟨WPhase.outerClear, w.busy, w.cancelled⟩ :=
    List.getElem?_set_self hlt
  have h2 : Step panics
      { s with handled := s.handled ++ [x],
               workers := s.workers.set i ⟨WPhase.outerClear, w.busy, w.cancelled⟩ }
      { s with handled := s.handled ++ [x],
               workers := s.workers.set i ⟨WPhase.sleeping, false, w.cancelled⟩ } := by
    have hst := @Step.outerClearStep α panics
      { s with handled := s.handled ++ [x],
               workers := s.workers.set i ⟨WPhase.outerClear, w.busy, w.cancelled⟩ }
      i ⟨WPhase.outerClear, w.busy, w.cancelled⟩ hw2 rfl
    rw [List.set_set] at hst
    exact hst
  exact ⟨h1, h2, (h.tail h1).tail h2, List.getElem?_set_self hlt⟩

/-- Witness for `panic_isolation`: the single worker of `panicWitState` is
mid-pop on item `7` with a handler that panics on everything; after the
invocation and the flag clear the pool is reachable with the worker asleep,
its busy flag false, and `7` recorded exactly once. -/
theorem panic_isolation_witness :
    Reachable (fun _ => true) [7] 1
      { panicWitState with handled := panicWitState.handled ++ [7],
                           workers := panicWitState.workers.set 0
                             ⟨WPhase.sleeping, false, false⟩ } ∧
    (panicWitState.workers.set 0 (⟨WPhase.sleeping, false, false⟩ : WorkerSt Nat))[0]?
      = some ⟨WPhase.sleeping, false, false⟩ := by
  have h := panic_isolation (fun _ => true) [7] 1 panicWitState 0
    ⟨WPhase.handling 7, true, false⟩ 7 ?_ rfl rfl rfl
  · exact ⟨h.2.2.1, h.2.2.2⟩
  have r1 : Reachable (fun _ => true) [7] 1
      ⟨[], ⟨⟨[], [7]⟩⟩, [⟨WPhase.checking, false, false⟩], [], WaiterPc.checkEmpty⟩ :=
    Relation.ReflTransGen.tail Relation.ReflTransGen.refl
      (Step.pushStep (initState [7] 1) 7 [] rfl)
  have r2 : Reachable (fun _ => true) [7] 1
      ⟨[], ⟨⟨[], [7]⟩⟩, [⟨WPhase.setBusy, false, false⟩], [], WaiterPc.checkEmpty⟩ :=
    Relation.ReflTransGen.tail r1 (Step.checkCancelFalse
      ⟨[], ⟨⟨[], [7]⟩⟩, [⟨WPhase.checking, false, false⟩], [], WaiterPc.checkEmpty⟩
      0 ⟨WPhase.checking, false, false⟩ rfl rfl rfl)
  have r3 : Reachable (fun _ => true) [7] 1
      ⟨[], ⟨⟨[], [7]⟩⟩, [⟨WPhase.popping, true, false⟩], [], WaiterPc.checkEmpty⟩ :=
    Relation.ReflTransGen.tail r2 (Step.setBusyStep
      ⟨[], ⟨⟨[], [7]⟩⟩, [⟨WPhase.setBusy, false, false⟩], [], WaiterPc.checkEmpty⟩
      0 ⟨WPhase.setBusy, false, false⟩ rfl rfl)
  exact Relation.ReflTransGen.tail r3 (Step.popSome
    ⟨[], ⟨⟨[], [7]⟩⟩, [⟨WPhase.popping, true, false⟩], [], WaiterPc.checkEmpty⟩
    0 ⟨WPhase.popping, true, false⟩ 7 ⟨⟨[], []⟩⟩ rfl rfl rfl)

/-- C6: Zero-worker construction — construction never fails (`initState` is
total in `task_count` and the handler), and with `task_count = 0` every
reachable state has no workers, an empty handled list (no pushed item is
ever processed), the queue plus the pending pushes always hold exactly the
pushed items (pushes still succeed, nothing ever drains), once all pushes
are done `is_empty()` is false forever, and `wait()` never returns. -/
theorem zero_worker_pool {α : Type} (panics : α → Bool) (l : List α) (s : PoolState α)
    (hl : l ≠ []) (h : Reachable panics l 0 s) :
    s.workers = [] ∧ s.handled = [] ∧ toListA s.backlog ++ s.toPush = l ∧
    (s.toPush = [] → s.backlog.empty = false) ∧ s.waiter ≠ WaiterPc.returned := by
  have hi := inv_reachable h
  have hwn : s.workers = [] := List.length_eq_zero.mp hi.len
  have hh : s.handled = [] := hi.hzero rfl
  have hinf : inflights s = [] := by simp [inflights, hwn]
  have hord := hi.ord (by omega)
  rw [hh, hinf] at hord
  simp only [List.nil_append] at hord
  refine ⟨hwn, hh, hord, ?_, ?_⟩
  · intro ht
    rw [ht, List.append_nil] at hord
    cases he : s.backlog.empty
    · rfl
    · exfalso
      rw [(arc_empty_iff s.backlog).mp he] at hord
      exact hl hord.symm
  · intro hr
    rcases hi.zeroW rfl hl with h2 | h2 <;> rw [hr] at h2 <;> simp at h2

/-- Witness for `zero_worker_pool`: the freshly built zero-worker pool with
one item yet to be pushed. -/
theorem zero_worker_pool_witness :
    (initState [1] 0 : PoolState Nat).handled = [] ∧
    (initState [1] 0 : PoolState Nat).waiter ≠ WaiterPc.returned := by
  have h := zero_worker_pool (fun _ => false) [1] (initState [1] 0) (by decide)
    Relation.ReflTransGen.refl
  exact ⟨h.2.1, h.2.2.2.2⟩

end Ruster

namespace Ruster

/-- C9: Teardown determinism — `impl Drop for Task` first sets the cancelled
flag (future loop iterations observe it) and then joins the thread.  From
any loop state, once the flag is set the loop reaches `finished` (the
thread exits) within seven transitions, so the join — and hence the
destructor, and hence dropping the whole pool, which drops each worker in
turn — terminates with every background thread exited: no thread leak.  The
flag is never cleared again, and if the drop races a handler invocation
already in progress, exactly that one invocation completes before the
thread exits: the dropping thread waits for the in-flight handler call. -/
theorem drop_teardown (handler : Nat → HandlerRes) (st : TaskSt) :
    (dropTask handler st).phase = TaskPhase.finished ∧
    (dropTask handler st).cancelled = true ∧
    (cancelTask st).cancelled = true ∧
    (st.phase = TaskPhase.running → (dropTask handler st).calls = st.calls + 1) := by
  obtain ⟨p, b, c, n⟩ := st
  unfold dropTask cancelTask
  cases p <;> cases hh : handler n <;> simp [stepN, taskStep, hh]

/-- Witness for `drop_teardown`: dropping a task mid-invocation completes
exactly that invocation before the thread exits. -/
theorem drop_teardown_witness :
    (dropTask (fun _ => HandlerRes.retTrue) ⟨TaskPhase.running, true, false, 0⟩).calls = 0 + 1 :=
  (drop_teardown (fun _ => HandlerRes.retTrue) ⟨TaskPhase.running, true, false, 0⟩).2.2.2 rfl

/-- C10: The background loop of `Task::new` exits only when the cancelled
flag is observed true at the top of an iteration: the only transition into
the `finished` phase is from the cancel check with the flag set.  The
closure's boolean return value never terminates the loop — despite the
in-code comment `If the handler returns true, we can break the loop`, a
`true` return merely runs the inner clear and `return`s out of the
`catch_unwind` closure: within four transitions the processing flag is
false and the worker is back at the top of the loop (phase `checking`, not
`finished`), polling again, with the cancelled flag untouched. -/
theorem loop_exit_only_on_cancel (handler : Nat → HandlerRes) (st : TaskSt) :
    ((taskStep handler st).phase = TaskPhase.finished →
      st.phase = TaskPhase.finished ∨
        (st.phase = TaskPhase.checking ∧ st.cancelled = true)) ∧
    (st.phase = TaskPhase.running → handler st.calls = HandlerRes.retTrue →
      (taskStep handler st).phase = TaskPhase.innerClear ∧
      (stepN handler 4 st).phase = TaskPhase.checking ∧
      (stepN handler 4 st).busy = false ∧
      (stepN handler 4 st).cancelled = st.cancelled ∧
      (stepN handler 4 st).phase ≠ TaskPhase.finished) := by
  obtain ⟨p, b, c, n⟩ := st
  refine ⟨?_, ?_⟩
  · intro hf
    cases p
    case checking =>
      cases c
      · simp [taskStep] at hf
      · exact Or.inr ⟨rfl, rfl⟩
    case setBusy => simp [taskStep] at hf
    case running => cases hh : handler n <;> simp [taskStep, hh] at hf
    case innerClear => simp [taskStep] at hf
    case outerClear => simp [taskStep] at hf
    case sleeping => simp [taskStep] at hf
    case finished => exact Or.inl rfl
  · intro hp hh
    cases p <;> simp at hp
    simp [stepN, taskStep, hh]

/-- Witness for `loop_exit_only_on_cancel`: a running task whose closure
returns `true` is back at the top of its loop four transitions later, not
finished. -/
theorem loop_exit_only_on_cancel_witness :
    (stepN (fun _ => HandlerRes.retTrue) 4 ⟨TaskPhase.running, true, false, 0⟩).phase
      = TaskPhase.checking ∧
    (stepN (fun _ => HandlerRes.retTrue) 4 ⟨TaskPhase.running, true, false, 0⟩).phase
      ≠ TaskPhase.finished := by
  have h := (loop_exit_only_on_cancel (fun _ => HandlerRes.retTrue)
    ⟨TaskPhase.running, true, false, 0⟩).2 rfl rfl
  exact ⟨h.2.1, h.2.2.2.2⟩

end Ruster
